import Mathlib

/-!
Verification of the selection state machine and move-validation protocol of a
terminal solitaire game (`src/main.rs`).

The embedding below translates the decision logic of `change_board_state`, the
key mapper `key_to_slot`, and the main loop's per-key dispatch into Lean.
The authoritative card engine (the `solitaire_base` crate) is external to the
repository; it is modelled as an abstract `Engine` record exposing exactly the
operations the source calls (`can_stack_onto`, `appendable`, the dragon
collection move, `simplify`), plus a board representation with the slot
access/pop/push operations the source uses.  Partial operations of the source
(`Option::unwrap` on card lookups and pops) are modelled with `Option`: a
`none` result of a step function marks a process abort (panic) of the source.
-/

/-- Number-card suits (`solitaire_base::card::NumberCard`). -/
inductive NumberCard
  | Bamboo
  | Characters
  | Coin
deriving DecidableEq, Repr

/-- Dragon colors (`solitaire_base::card::DragonCard`). -/
inductive DragonCard
  | Green
  | White
  | Red
deriving DecidableEq, Repr

/-- Cards (`solitaire_base::card::Card`): number cards with a suit and rank,
dragons with a color, and the single flower card. -/
inductive Card
  | Number (suit : NumberCard) (rank : Nat)
  | Dragon (color : DragonCard)
  | Flower
deriving DecidableEq, Repr

/-- Addressable slots (`solitaire_base::index::Slot`): three spare (free) cells
and eight tray columns. -/
inductive Slot
  | Spare (i : Nat)
  | Tray (i : Nat)
deriving DecidableEq, Repr

/-- Occupied positions (`solitaire_base::index::Location`): a spare cell, or a
tray column together with a 1-based depth from the bottom. -/
inductive Location
  | Spare (i : Nat)
  | Tray (x : Nat) (y : Nat)
deriving DecidableEq, Repr

/-- The key events the state machine distinguishes: a character key, the
escape key, or any other key. -/
inductive KeyCode
  | Char (c : Char)
  | Esc
  | Other
deriving DecidableEq, Repr

/-- The selection states (`enum BoardState` in `src/main.rs`): `View` is the
neutral state, `CollectDragon` awaits a color, `SemiPickup` awaits a count,
`Pickup` holds a selected location awaiting a destination. -/
inductive BoardState
  | View
  | CollectDragon
  | SemiPickup (index : Nat)
  | Pickup (loc : Location)
deriving DecidableEq, Repr

/-- The board as the source observes it through the engine interface: each
spare cell and each tray column is an ordered list of cards, bottom first,
top of the stack last.  (A spare cell holds at most one card in real play;
the representation does not need that bound.) -/
structure Board where
  spares : List (List Card)
  trays : List (List Card)
deriving DecidableEq, Repr

/-- `board.get(slot)` iterated bottom-to-top: the card list of a slot. -/
def Board.get (b : Board) : Slot → List Card
  | .Spare i => b.spares.getD i []
  | .Tray i => b.trays.getD i []

/-- Replace the card list of a slot. -/
def Board.set (b : Board) : Slot → List Card → Board
  | .Spare i, l => ⟨b.spares.set i l, b.trays⟩
  | .Tray i, l => ⟨b.spares, b.trays.set i l⟩

/-- `board.pop(slot)`: remove and return the topmost card; `none` when the
slot is empty (the source unwraps the result). -/
def Board.pop (b : Board) (s : Slot) : Option (Card × Board) :=
  match (b.get s).getLast? with
  | none => none
  | some c => some (c, b.set s (b.get s).dropLast)

/-- `board.push(slot, card)`: append a card on top of a slot. -/
def Board.push (b : Board) (s : Slot) (c : Card) : Board :=
  b.set s (b.get s ++ [c])

/-- The shape the engine guarantees for every board it hands out: exactly
three spare cells and eight tray columns. -/
def Board.WF (b : Board) : Prop :=
  b.spares.length = 3 ∧ b.trays.length = 8

instance (b : Board) : Decidable b.WF := by
  unfold Board.WF; infer_instance

/-- The external engine interface consumed by `change_board_state`: the
stacking predicate `can_stack_onto(upper, lower)`, the destination predicate
`appendable(slot, card)`, the dragon-collection move (`some` of the new board
on success, `none` on failure with no mutation), and the `simplify`
auto-completion step. -/
structure Engine where
  can_stack_onto : Card → Card → Bool
  appendable : Board → Slot → Card → Bool
  collect_dragon : Board → DragonCard → Option Board
  simplify : Board → Board

/-- `key_to_slot` (`src/main.rs` lines 24-39): the key mapper from a key to a
destination slot; any unmapped key yields `none`. -/
def key_to_slot : KeyCode → Option Slot
  | .Char c =>
    if c = 'a' then some (.Spare 0)
    else if c = 'b' then some (.Spare 1)
    else if c = 'c' then some (.Spare 2)
    else if c = '1' then some (.Tray 0)
    else if c = '2' then some (.Tray 1)
    else if c = '3' then some (.Tray 2)
    else if c = '4' then some (.Tray 3)
    else if c = '5' then some (.Tray 4)
    else if c = '6' then some (.Tray 5)
    else if c = '7' then some (.Tray 6)
    else if c = '8' then some (.Tray 7)
    else none
  | _ => none

/-- `c.to_digit(10)` of the source: the numeric value of a decimal digit
character, `none` for any other character. -/
def to_digit (c : Char) : Option Nat :=
  if c.isDigit then some (c.toNat - 48) else none

/-- The color choice of the `CollectDragon` branch (`src/main.rs` lines
153-158). -/
def key_to_color : KeyCode → Option DragonCard
  | .Char c =>
    if c = 'g' then some DragonCard.Green
    else if c = 'w' then some DragonCard.White
    else if c = 'r' then some DragonCard.Red
    else none
  | _ => none

/-- The run-validation loop of the `SemiPickup` branch (`src/main.rs` lines
173-179): for every index `i` in `n..length`, the card at 0-based position
`i` must stack onto the card at position `i - 1`. -/
def run_ok (stack : Card → Card → Bool) (l : List Card) (n : Nat) : Bool :=
  (List.range' n (l.length - n)).all fun i =>
    stack (l.getD i Card.Flower) (l.getD (i - 1) Card.Flower)

/-- Source-card resolution of the `Pickup` branch (`src/main.rs` lines
189-192): the occupant of a spare cell, or the card at 0-based position
`y - 1` of a tray column.  `none` models the `unwrap` panic of the source. -/
def source_card (b : Board) : Location → Option Card
  | .Spare i => (b.get (.Spare i)).head?
  | .Tray x y => (b.get (.Tray x))[y - 1]?

/-- Pop `k` cards from a slot, collecting them in pop order (top first);
`none` when a pop hits an empty slot (the source unwraps each pop). -/
def popN (b : Board) (s : Slot) : Nat → Option (List Card × Board)
  | 0 => some ([], b)
  | k + 1 =>
    match b.pop s with
    | none => none
    | some (c, b1) =>
      match popN b1 s k with
      | none => none
      | some (cs, b2) => some (c :: cs, b2)

/-- The extraction step of a move (`src/main.rs` lines 199-206): a spare cell
yields its single popped card; a tray pops `length - (y - 1)` cards and
reverses the popped list back to bottom-to-top order. -/
def extract (b : Board) : Location → Option (List Card × Board)
  | .Spare i =>
    match b.pop (.Spare i) with
    | none => none
    | some (c, b1) => some ([c], b1)
  | .Tray x y =>
    match popN b (.Tray x) ((b.get (.Tray x)).length - (y - 1)) with
    | none => none
    | some (cs, b1) => some (cs.reverse, b1)

/-- The state chosen by the `BoardState::View` branch for a character key
(`src/main.rs` lines 133-146): the branch only assigns the selection state;
board and notice are untouched. -/
def view_state (c : Char) : BoardState :=
  if c = 'a' then .Pickup (.Spare 0)
  else if c = 'b' then .Pickup (.Spare 1)
  else if c = 'c' then .Pickup (.Spare 2)
  else if c = '1' then .SemiPickup 0
  else if c = '2' then .SemiPickup 1
  else if c = '3' then .SemiPickup 2
  else if c = '4' then .SemiPickup 3
  else if c = '5' then .SemiPickup 4
  else if c = '6' then .SemiPickup 5
  else if c = '7' then .SemiPickup 6
  else if c = '8' then .SemiPickup 7
  else if c = 'd' then .CollectDragon
  else .View

/-- The `BoardState::View` branch of `change_board_state` (`src/main.rs`
lines 132-148). -/
def view_step (b : Board) (k : KeyCode) : Board × BoardState × Option String :=
  match k with
  | .Char c => (b, view_state c, none)
  | _ => (b, .View, none)

/-- The `BoardState::CollectDragon` branch (`src/main.rs` lines 149-165). -/
def collect_step (E : Engine) (b : Board) (k : KeyCode) :
    Board × BoardState × Option String :=
  if k = .Esc then (b, .View, none)
  else
    match key_to_color k with
    | none => (b, .CollectDragon, none)
    | some color =>
      match E.collect_dragon b color with
      | some b1 => (b1, .View, none)
      | none => (b, .CollectDragon, some "Cannot collect dragon")

/-- The `BoardState::SemiPickup` branch (`src/main.rs` lines 166-183). -/
def semi_step (E : Engine) (b : Board) (index : Nat) (k : KeyCode) :
    Board × BoardState × Option String :=
  if k = .Esc then (b, .View, none)
  else
    match k with
    | .Char c =>
      match to_digit c with
      | none => (b, .SemiPickup index, none)
      | some n =>
        if n = 0 ∨ (b.get (.Tray index)).length < n then (b, .SemiPickup index, none)
        else if run_ok E.can_stack_onto (b.get (.Tray index)) n then
          (b, .Pickup (.Tray index n), none)
        else (b, .SemiPickup index, some "Not a valid stack")
    | _ => (b, .SemiPickup index, none)

/-- The `BoardState::Pickup` branch (`src/main.rs` lines 184-213): resolve the
destination and the source card, check `appendable`, then extract, push, and
`simplify`.  `none` models an `unwrap` panic of the source. -/
def pickup_step (E : Engine) (b : Board) (loc : Location) (k : KeyCode) :
    Option (Board × BoardState × Option String) :=
  if k = .Esc then some (b, .View, none)
  else
    match key_to_slot k with
    | none => some (b, .Pickup loc, none)
    | some target =>
      match source_card b loc with
      | none => none
      | some card =>
        if E.appendable b target card then
          match extract b loc with
          | none => none
          | some (cards, b1) =>
            some (E.simplify (cards.foldl (fun bb c => bb.push target c) b1), .View, none)
        else some (b, .Pickup loc, some "Cannot stack onto that")

/-- `change_board_state` (`src/main.rs` lines 129-215): the transient notice
is cleared at the start of handling (line 130) and only re-set by an explicit
rejection, so the result never depends on the incoming notice. -/
def change_board_state (E : Engine) (b : Board) (s : BoardState)
    (info : Option String) (k : KeyCode) :
    Option (Board × BoardState × Option String) :=
  match s with
  | .View => some (view_step b k)
  | .CollectDragon => some (collect_step E b k)
  | .SemiPickup index => some (semi_step E b index k)
  | .Pickup loc => pickup_step E b loc k

/-- The per-key dispatch of the main loop (`src/main.rs` lines 257-266):
the quit key ends the loop (modelled as no change), the new-game key replaces
the board with a fresh one and touches neither the state nor the notice, and
every other key goes to `change_board_state`. -/
def handle_key (E : Engine) (fresh : Board)
    (t : Board × BoardState × Option String) (k : KeyCode) :
    Option (Board × BoardState × Option String) :=
  if k = .Char 'q' then some t
  else if k = .Char 'n' then some (fresh, t.2.1, t.2.2)
  else change_board_state E t.1 t.2.1 t.2.2 k

/-- The configurations the process can reach: it starts on some freshly dealt
board in the neutral state with no notice, and evolves by key events (each
new-game key may bring in an arbitrary fresh board). -/
inductive Reachable (E : Engine) : Board × BoardState × Option String → Prop
  | init (b : Board) : Reachable E (b, .View, none)
  | step {t t1 : Board × BoardState × Option String} (fresh : Board) (k : KeyCode) :
      Reachable E t → handle_key E fresh t k = some t1 → Reachable E t1

/-- Modelled from the spec: the external engine crate is not part of this
repository; its stacking predicate is described only as "alternating suit /
descending rank", i.e. a number card may rest on a number card of a different
suit and of rank exactly one larger. -/
def spec_can_stack_onto : Card → Card → Bool
  | Card.Number s1 r1, Card.Number s2 r2 => decide (s1 ≠ s2) && decide (r1 + 1 = r2)
  | _, _ => false

/-- Modelled from the spec: the external engine's `appendable(destination,
card)` — an empty free cell accepts any card; a tray accepts a card iff the
tray is empty or the card may stack onto the tray's top card. -/
def spec_appendable (b : Board) (t : Slot) (c : Card) : Bool :=
  match t with
  | .Spare i => (b.get (.Spare i)).isEmpty
  | .Tray i =>
    match (b.get (.Tray i)).getLast? with
    | none => true
    | some top => spec_can_stack_onto c top

/-- A concrete instantiation of the external engine interface, used only to
evaluate the state machine on concrete boards: stacking and appendability are
the spec-modelled predicates; dragon collection always fails and
auto-completion is the identity (the engine is external, so any instantiation
of its interface is admissible for concrete evaluation). -/
def test_engine : Engine :=
  ⟨spec_can_stack_onto, spec_appendable, fun _ _ => none, fun b => b⟩

/-- An entirely empty board (all three spares and all eight trays empty). -/
def board0 : Board :=
  ⟨[[], [], []], [[], [], [], [], [], [], [], []]⟩

/-- A board whose third tray column (0-based index 2, the column of key `'3'`)
holds two same-suit cards, which no stacking predicate of the "alternating
suit" family accepts as a run. -/
def board_c3 : Board :=
  ⟨[[], [], []],
   [[], [], [Card.Number NumberCard.Coin 5, Card.Number NumberCard.Coin 4],
    [], [], [], [], []]⟩

/-- A board whose third tray column holds exactly one card. -/
def board_c3w : Board :=
  ⟨[[], [], []],
   [[], [], [Card.Number NumberCard.Coin 5], [], [], [], [], []]⟩

/-- A board whose first tray column holds exactly one card. -/
def board_one : Board :=
  ⟨[[], [], []], [[Card.Flower], [], [], [], [], [], [], []]⟩

/-- A board with occupied spare cells 0 and 1: a destination spare that is
occupied is rejected by the spec-modelled `appendable`. -/
def board_c1 : Board :=
  ⟨[[Card.Dragon DragonCard.Green], [Card.Dragon DragonCard.Red], []],
   [[], [], [], [], [], [], [], []]⟩

/-- The notices the state machine can leave behind: none, or one of the three
explicit rejection messages. -/
def notice_ok : Option (Board × BoardState × Option String) → Bool
  | none => true
  | some (_, _, none) => true
  | some (_, _, some m) =>
    m == "Not a valid stack" || m == "Cannot stack onto that" ||
      m == "Cannot collect dragon"

/-- The depth bound maintained by the state machine: a held tray selection
always has a 1-based depth between 1 and 9. -/
def depth_ok : BoardState → Prop
  | .Pickup (.Tray _ y) => 1 ≤ y ∧ y ≤ 9
  | _ => True

/-- Index validity of a slot against a concrete board shape. -/
def slot_in_range (b : Board) : Slot → Prop
  | .Spare i => i < b.spares.length
  | .Tray i => i < b.trays.length

/-! ## Board access lemmas -/

theorem list_getD_set_self {α : Type} (l : List α) (i : Nat) (x d : α)
    (h : i < l.length) : (l.set i x).getD i d = x := by
  simp [List.getD_eq_getElem?_getD, List.getElem?_set_self h]

theorem list_set_getD_self {α : Type} (l : List α) (i : Nat) (d : α)
    (h : i < l.length) : l.set i (l.getD i d) = l := by
  have hg : l.getD i d = l[i] := by
    simp [List.getD_eq_getElem?_getD, List.getElem?_eq_getElem h]
  rw [hg]
  apply List.ext_getElem?
  intro j
  rw [List.getElem?_set]
  split
  · rename_i hij; subst hij; simp [h, List.getElem?_eq_getElem h]
  · rfl

theorem get_set_self (b : Board) (s : Slot) (l : List Card)
    (h : slot_in_range b s) : (b.set s l).get s = l := by
  cases s <;> exact list_getD_set_self _ _ _ _ h

theorem get_set_ne (b : Board) (s s' : Slot) (l : List Card)
    (h : s ≠ s') : (b.set s l).get s' = b.get s' := by
  cases s <;> cases s' <;>
    simp only [Board.set, Board.get] <;>
    first
    | rfl
    | · rename_i i j
        have hij : i ≠ j := by rintro rfl; exact h rfl
        simp [List.getD_eq_getElem?_getD, List.getElem?_set_ne hij]

theorem set_set_same (b : Board) (s : Slot) (l1 l2 : List Card) :
    (b.set s l1).set s l2 = b.set s l2 := by
  cases s <;> simp [Board.set, List.set_set]

theorem set_get_self (b : Board) (s : Slot) (h : slot_in_range b s) :
    b.set s (b.get s) = b := by
  cases s <;>
    simp only [Board.set, Board.get] <;>
    rw [list_set_getD_self _ _ _ h]

theorem in_range_set (b : Board) (s : Slot) (l : List Card) (s' : Slot) :
    slot_in_range (b.set s l) s' ↔ slot_in_range b s' := by
  cases s <;> cases s' <;> simp [Board.set, slot_in_range, List.length_set]

theorem in_range_of_get_ne_nil (b : Board) (s : Slot) (h : b.get s ≠ []) :
    slot_in_range b s := by
  cases s <;>
  · rename_i i
    by_contra hlt
    exact h (List.getD_eq_default _ _ (le_of_not_lt hlt))

/-! ## Extraction and insertion lemmas -/

theorem popN_spec (s : Slot) : ∀ (k : Nat) (b : Board),
    slot_in_range b s → k ≤ (b.get s).length →
    popN b s k = some (((b.get s).drop ((b.get s).length - k)).reverse,
      b.set s ((b.get s).take ((b.get s).length - k)))
  | 0, b, hr, _ => by
    simp only [popN, Nat.sub_zero, List.drop_length, List.reverse_nil,
      List.take_length, set_get_self b s hr]
  | k + 1, b, hr, hk => by
    have hne : b.get s ≠ [] := by
      intro hnil
      rw [hnil] at hk
      simp at hk
    have hlast := List.getLast?_eq_getLast (b.get s) hne
    have hpop : b.pop s = some ((b.get s).getLast hne, b.set s (b.get s).dropLast) := by
      rw [Board.pop, hlast]
    have hr1 : slot_in_range (b.set s (b.get s).dropLast) s := (in_range_set b s _ s).mpr hr
    have hget1 : (b.set s (b.get s).dropLast).get s = (b.get s).dropLast :=
      get_set_self b s _ hr
    have hlen : (b.get s).dropLast.length = (b.get s).length - 1 := by
      simp [List.dropLast_eq_take]
    have hk1 : k ≤ ((b.set s (b.get s).dropLast).get s).length := by
      rw [hget1, hlen]; omega
    have ih := popN_spec s k (b.set s (b.get s).dropLast) hr1 hk1
    rw [hget1] at ih
    have harith : (b.get s).dropLast.length - k = (b.get s).length - (k + 1) := by
      rw [hlen]; omega
    have htake : (b.get s).dropLast.take ((b.get s).length - (k + 1))
        = (b.get s).take ((b.get s).length - (k + 1)) := by
      rw [List.dropLast_eq_take, List.take_take]
      congr 1
      have hlen2 : 0 < (b.get s).length := List.length_pos.mpr hne
      omega
    have hdrop : (b.get s).drop ((b.get s).length - (k + 1))
        = (b.get s).dropLast.drop ((b.get s).length - (k + 1)) ++ [(b.get s).getLast hne] := by
      have h1 : (b.get s).drop ((b.get s).length - (k + 1))
          = ((b.get s).dropLast ++ [(b.get s).getLast hne]).drop ((b.get s).length - (k + 1)) := by
        rw [List.dropLast_concat_getLast hne]
      rw [h1, List.drop_append_of_le_length (by rw [hlen]; omega)]
    have step1 : popN b s (k + 1)
        = match popN (b.set s (b.get s).dropLast) s k with
          | none => none
          | some (cs, b2) => some ((b.get s).getLast hne :: cs, b2) := by
      rw [popN, hpop]
    rw [step1, ih, harith, htake, set_set_same]
    simp [hdrop]

theorem extract_tray (b : Board) (x y : Nat) (c : Card)
    (hs : source_card b (.Tray x y) = some c) :
    extract b (.Tray x y) = some ((b.get (.Tray x)).drop (y - 1),
      b.set (.Tray x) ((b.get (.Tray x)).take (y - 1))) := by
  have hlt : y - 1 < (b.get (.Tray x)).length := by
    have := (List.getElem?_eq_some.mp hs).1
    exact this
  have hr : slot_in_range b (.Tray x) := by
    apply in_range_of_get_ne_nil
    exact List.ne_nil_of_length_pos (Nat.lt_of_le_of_lt (Nat.zero_le _) hlt)
  have hk : (b.get (.Tray x)).length - (y - 1) ≤ (b.get (.Tray x)).length :=
    Nat.sub_le _ _
  have hspec := popN_spec (.Tray x) ((b.get (.Tray x)).length - (y - 1)) b hr hk
  have harith : (b.get (.Tray x)).length - ((b.get (.Tray x)).length - (y - 1)) = y - 1 := by
    omega
  rw [harith] at hspec
  rw [extract, hspec]
  simp

theorem foldl_push_get (t : Slot) (cards : List Card) : ∀ (b : Board),
    slot_in_range b t →
    (cards.foldl (fun bb c => bb.push t c) b).get t = b.get t ++ cards
  | b, hr => by
    induction cards generalizing b with
    | nil => simp
    | cons c cs ih =>
      rw [List.foldl_cons]
      have hr1 : slot_in_range (b.push t c) t := (in_range_set b t _ t).mpr hr
      rw [ih (b.push t c) hr1]
      rw [Board.push, get_set_self b t _ hr]
      simp

theorem foldl_push_get_ne (t : Slot) (cards : List Card) : ∀ (b : Board) (s' : Slot),
    s' ≠ t → (cards.foldl (fun bb c => bb.push t c) b).get s' = b.get s'
  | b, s', hne => by
    induction cards generalizing b with
    | nil => simp
    | cons c cs ih =>
      rw [List.foldl_cons, ih (b.push t c)]
      rw [Board.push, get_set_ne b t s' _ (fun h => hne h.symm)]

/-! ## Key mapper lemmas -/

theorem key_to_slot_ne_esc (k : KeyCode) (t : Slot) (hk : key_to_slot k = some t) :
    k ≠ .Esc := by
  rintro rfl
  exact Option.noConfusion hk

theorem key_to_color_ne_esc (k : KeyCode) (c : DragonCard) (hk : key_to_color k = some c) :
    k ≠ .Esc := by
  rintro rfl
  exact Option.noConfusion hk

set_option maxHeartbeats 1000000 in
theorem key_to_slot_in_range (b : Board) (k : KeyCode) (t : Slot)
    (hwf : b.WF) (hk : key_to_slot k = some t) : slot_in_range b t := by
  obtain ⟨h3, h8⟩ := hwf
  cases k with
  | Char c =>
    unfold key_to_slot at hk
    repeat' split at hk
    all_goals first
    | (cases hk; simp only [slot_in_range]; omega)
    | exact Option.noConfusion hk
  | Esc => exact Option.noConfusion hk
  | Other => exact Option.noConfusion hk

theorem to_digit_le_nine (c : Char) (n : Nat) (h : to_digit c = some n) : n ≤ 9 := by
  unfold to_digit at h
  split at h
  · rename_i hd
    cases h
    unfold Char.isDigit at hd
    simp only [Bool.and_eq_true, decide_eq_true_eq] at hd
    have h2 := hd.2
    rw [UInt32.le_def] at h2
    have h3 : c.toNat ≤ 57 := h2
    omega
  · exact Option.noConfusion h

/-! ## Claim theorems -/

/-- C1 (counterexample): from `HeldSelection` (`Pickup`), a destination key
whose slot the engine's `appendable` predicate rejects does NOT reset the
state to Neutral: the source returns right after setting the notice
(`src/main.rs` lines 194-197), so the state stays `Pickup`.  Concretely, on a
board whose spare cells 0 and 1 are occupied, holding spare 0 and pressing
the key of spare 1 keeps the state at `Pickup (Spare 0)`. -/
theorem pickup_illegal_destination_cx :
    change_board_state test_engine board_c1 (.Pickup (.Spare 0)) none (.Char 'b')
        = some (board_c1, .Pickup (.Spare 0), some "Cannot stack onto that")
      ∧ BoardState.Pickup (.Spare 0) ≠ BoardState.View := by
  decide

/-- C1 (amended): from `Pickup loc`, when the pressed key maps to a
destination slot and `appendable` rejects the resolved source card, the
notice is set to the rejection message and the state REMAINS `Pickup loc`
(the board is unchanged). -/
theorem pickup_illegal_destination (E : Engine) (b : Board) (loc : Location)
    (info : Option String) (k : KeyCode) (t : Slot) (c : Card)
    (hk : key_to_slot k = some t) (hs : source_card b loc = some c)
    (ha : E.appendable b t c = false) :
    change_board_state E b (.Pickup loc) info k
      = some (b, .Pickup loc, some "Cannot stack onto that") := by
  have hne := key_to_slot_ne_esc k t hk
  simp [change_board_state, pickup_step, hne, hk, hs, ha]

/-- C1 witness: the amended theorem applied at the concrete rejection. -/
theorem pickup_illegal_destination_w :
    change_board_state test_engine board_c1 (.Pickup (.Spare 0)) none (.Char 'b')
      = some (board_c1, .Pickup (.Spare 0), some "Cannot stack onto that") :=
  pickup_illegal_destination test_engine board_c1 (.Spare 0) none (.Char 'b')
    (.Spare 1) (Card.Dragon DragonCard.Green) (by decide) (by decide) (by decide)

/-- C2: key handling CAN abort the process.  From Neutral, the free-cell key
`'a'` unconditionally enters `Pickup (Spare 0)` even on an empty cell; a
following destination key then reaches `Option::unwrap` on a `None` source
card (`src/main.rs` line 192) — modelled here as the `none` (panic) result of
`change_board_state`. -/
theorem empty_spare_pickup_aborts :
    change_board_state test_engine board0 .View none (.Char 'a')
        = some (board0, .Pickup (.Spare 0), none)
      ∧ change_board_state test_engine board0 (.Pickup (.Spare 0)) none (.Char 'b')
        = none := by
  decide

/-- C3 (counterexample): from Neutral, key `'3'` then count `'1'` does NOT
always reach `Pickup (Tray 2 1)` when the column (0-based index 2) is
non-empty: with two same-suit cards the run check from depth 1 fails, the
state stays `SemiPickup 2` and the notice is set. -/
theorem scenario_a_cx :
    1 ≤ (board_c3.get (.Tray 2)).length
      ∧ change_board_state test_engine board_c3 .View none (.Char '3')
          = some (board_c3, .SemiPickup 2, none)
      ∧ change_board_state test_engine board_c3 (.SemiPickup 2) none (.Char '1')
          = some (board_c3, .SemiPickup 2, some "Not a valid stack")
      ∧ (board_c3, BoardState.SemiPickup 2, some "Not a valid stack")
          ≠ (board_c3, BoardState.Pickup (.Tray 2 1), (none : Option String)) := by
  decide

/-- C3 (amended): from Neutral, key `'3'` then count `'1'`, on a board whose
column of key `'3'` (0-based index 2) is non-empty AND whose cards from depth
1 to the top pass the engine's stacking predicate, reaches
`Pickup (Tray 2 1)` with no notice. -/
theorem scenario_a (E : Engine) (b : Board) (i1 i2 : Option String)
    (h1 : 1 ≤ (b.get (.Tray 2)).length)
    (h2 : run_ok E.can_stack_onto (b.get (.Tray 2)) 1 = true) :
    change_board_state E b .View i1 (.Char '3') = some (b, .SemiPickup 2, none)
      ∧ change_board_state E b (.SemiPickup 2) i2 (.Char '1')
          = some (b, .Pickup (.Tray 2 1), none) := by
  constructor
  · rfl
  · have hd : to_digit '1' = some 1 := by decide
    have hno : ¬(1 = 0 ∨ (b.get (.Tray 2)).length < 1) := by omega
    have hne : b.get (.Tray 2) ≠ [] := List.ne_nil_of_length_pos h1
    simp [change_board_state, semi_step, hd, hno, h2, hne]

/-- C3 witness: a single-card column validates vacuously. -/
theorem scenario_a_w :
    change_board_state test_engine board_c3w .View none (.Char '3')
        = some (board_c3w, .SemiPickup 2, none)
      ∧ change_board_state test_engine board_c3w (.SemiPickup 2) none (.Char '1')
          = some (board_c3w, .Pickup (.Tray 2 1), none) :=
  scenario_a test_engine board_c3w none none (by decide) (by decide)

/-- C4: in `SemiPickup index`, a digit key parsed as `n` is a silent no-op
when `n = 0` or `n` exceeds the column's card count; otherwise the run from
depth `n` to the top is validated with the engine's stacking predicate:
success moves to `Pickup (Tray index n)`, failure stays in `SemiPickup index`
with the notice set. -/
theorem semi_pickup_digit (E : Engine) (b : Board) (index : Nat)
    (info : Option String) (c : Char) (n : Nat) (h : to_digit c = some n) :
    change_board_state E b (.SemiPickup index) info (.Char c)
      = some (if n = 0 ∨ (b.get (.Tray index)).length < n
          then (b, .SemiPickup index, (none : Option String))
          else if run_ok E.can_stack_onto (b.get (.Tray index)) n
          then (b, .Pickup (.Tray index n), none)
          else (b, .SemiPickup index, some "Not a valid stack")) := by
  simp [change_board_state, semi_step, h]

/-- C4 witness: the theorem applied at a concrete board and digit. -/
theorem semi_pickup_digit_w :
    change_board_state test_engine board_one (.SemiPickup 0) none (.Char '1')
      = some (board_one, .Pickup (.Tray 0 1), none) :=
  (semi_pickup_digit test_engine board_one 0 none '1' 1 (by decide)).trans (by decide)

/-- C6: a move rejected by `appendable` leaves the board untouched: no pop,
push, or auto-completion runs, because the rejection returns before the
extraction (`src/main.rs` lines 194-197). -/
theorem reject_no_mutation (E : Engine) (b : Board) (loc : Location)
    (info : Option String) (k : KeyCode) (t : Slot) (c : Card)
    (hk : key_to_slot k = some t) (hs : source_card b loc = some c)
    (ha : E.appendable b t c = false) :
    (change_board_state E b (.Pickup loc) info k).map Prod.fst = some b := by
  have hne := key_to_slot_ne_esc k t hk
  simp [change_board_state, pickup_step, hne, hk, hs, ha]

/-- C6 witness: the theorem applied at the concrete rejected move. -/
theorem reject_no_mutation_w :
    (change_board_state test_engine board_c1 (.Pickup (.Spare 0)) none
        (.Char 'b')).map Prod.fst = some board_c1 :=
  reject_no_mutation test_engine board_c1 (.Spare 0) none (.Char 'b')
    (.Spare 1) (Card.Dragon DragonCard.Green) (by decide) (by decide) (by decide)

/-- C7: in `CollectDragon`, a color-choice key invokes the engine's
dragon-collection move for that color; success goes to Neutral with no
notice, failure stays in `CollectDragon` with the rejection notice (so the
user can retry another color). -/
theorem collect_dragon_outcome (E : Engine) (b : Board) (info : Option String)
    (k : KeyCode) (color : DragonCard) (hk : key_to_color k = some color) :
    change_board_state E b .CollectDragon info k
      = some (match E.collect_dragon b color with
          | some b1 => (b1, BoardState.View, (none : Option String))
          | none => (b, BoardState.CollectDragon, some "Cannot collect dragon")) := by
  have hne := key_to_color_ne_esc k color hk
  simp [change_board_state, collect_step, hne, hk]

/-- C7 witness: the theorem applied with a concrete engine whose collection
move fails. -/
theorem collect_dragon_outcome_w :
    change_board_state test_engine board0 .CollectDragon none (.Char 'g')
      = some (board0, BoardState.CollectDragon, some "Cannot collect dragon") :=
  (collect_dragon_outcome test_engine board0 none (.Char 'g') DragonCard.Green
    (by decide)).trans (by decide)

/-- C9: in every non-Neutral state the cancel key (escape) returns to Neutral
with the notice cleared and the board untouched. -/
theorem cancel_to_neutral (E : Engine) (b : Board) (s : BoardState)
    (info : Option String) (h : s ≠ .View) :
    change_board_state E b s info .Esc = some (b, .View, none) := by
  cases s
  · exact absurd rfl h
  · rfl
  · rfl
  · rfl

/-- C9 witness: the theorem applied in the `CollectDragon` state. -/
theorem cancel_to_neutral_w :
    change_board_state test_engine board0 .CollectDragon none .Esc
      = some (board0, .View, none) :=
  cancel_to_neutral test_engine board0 .CollectDragon none (by decide)

/-- C5: an executed (legal) move from `Tray x` at depth `y` to a different
destination slot removes exactly `length - y + 1` cards (the run from 0-based
position `y - 1` up) from the top of the column and pushes them in their
original bottom-to-top order onto the destination, so before the engine's
auto-completion step the run appears in order on top of the destination and
is entirely gone from the source column. -/
theorem move_transfers_run (E : Engine) (b : Board) (x y : Nat)
    (info : Option String) (k : KeyCode) (t : Slot) (c : Card)
    (hwf : b.WF) (hk : key_to_slot k = some t) (ht : t ≠ .Tray x)
    (hy : 1 ≤ y) (hs : source_card b (.Tray x y) = some c)
    (ha : E.appendable b t c = true) :
    ∃ b2, change_board_state E b (.Pickup (.Tray x y)) info k
        = some (E.simplify b2, .View, none)
      ∧ b2.get (.Tray x) = (b.get (.Tray x)).take (y - 1)
      ∧ b2.get t = b.get t ++ (b.get (.Tray x)).drop (y - 1)
      ∧ ((b.get (.Tray x)).drop (y - 1)).length
          = (b.get (.Tray x)).length - y + 1 := by
  have hne := key_to_slot_ne_esc k t hk
  have hx := extract_tray b x y c hs
  have hs2 : (b.get (.Tray x))[y - 1]? = some c := hs
  have hlt : y - 1 < (b.get (.Tray x)).length := (List.getElem?_eq_some.mp hs2).1
  have hrx : slot_in_range b (.Tray x) :=
    in_range_of_get_ne_nil b _ (List.ne_nil_of_length_pos (by omega))
  have hrt : slot_in_range b t := key_to_slot_in_range b k t hwf hk
  refine ⟨((b.get (.Tray x)).drop (y - 1)).foldl (fun bb c => bb.push t c)
      (b.set (.Tray x) ((b.get (.Tray x)).take (y - 1))), ?_, ?_, ?_, ?_⟩
  · simp [change_board_state, pickup_step, hne, hk, hs, ha, hx]
  · rw [foldl_push_get_ne t ((b.get (.Tray x)).drop (y - 1))
      (b.set (.Tray x) ((b.get (.Tray x)).take (y - 1))) (.Tray x) (Ne.symm ht)]
    exact get_set_self b _ _ hrx
  · have hrtb1 : slot_in_range
        (b.set (.Tray x) ((b.get (.Tray x)).take (y - 1))) t :=
      (in_range_set b _ _ t).mpr hrt
    rw [foldl_push_get t ((b.get (.Tray x)).drop (y - 1))
      (b.set (.Tray x) ((b.get (.Tray x)).take (y - 1))) hrtb1]
    rw [get_set_ne b _ t _ (Ne.symm ht)]
  · rw [List.length_drop]
    omega

/-- C5 witness: moving the single card of column 0 to the empty spare cell 0:
the run of one card lands on the spare and the column empties. -/
theorem move_transfers_run_w :
    ∃ b2, change_board_state test_engine board_one (.Pickup (.Tray 0 1)) none
        (.Char 'a') = some (test_engine.simplify b2, .View, none)
      ∧ b2.get (.Tray 0) = (board_one.get (.Tray 0)).take (1 - 1)
      ∧ b2.get (.Spare 0)
          = board_one.get (.Spare 0) ++ (board_one.get (.Tray 0)).drop (1 - 1)
      ∧ ((board_one.get (.Tray 0)).drop (1 - 1)).length
          = (board_one.get (.Tray 0)).length - 1 + 1 :=
  move_transfers_run test_engine board_one 0 1 none (.Char 'a') (.Spare 0)
    Card.Flower (by decide) (by decide) (by decide) (by decide) (by decide)
    (by decide)

/-! ## C8: the transient notice across key handling -/

theorem collect_step_notice (E : Engine) (b : Board) (k : KeyCode) :
    notice_ok (some (collect_step E b k)) = true := by
  unfold collect_step
  repeat' split
  all_goals rfl

theorem semi_step_notice (E : Engine) (b : Board) (index : Nat) (k : KeyCode) :
    notice_ok (some (semi_step E b index k)) = true := by
  unfold semi_step
  repeat' split
  all_goals rfl

theorem pickup_step_notice (E : Engine) (b : Board) (loc : Location) (k : KeyCode) :
    notice_ok (pickup_step E b loc k) = true := by
  unfold pickup_step
  repeat' split
  all_goals rfl

/-- C8 (counterexample): the new-game key is handled in the main loop before
`change_board_state` runs (`src/main.rs` lines 262-263): it replaces the
board and leaves the notice exactly as it was, so a stale rejection message
survives a new-game key even though no rejection occurred while handling
it. -/
theorem new_game_keeps_notice :
    handle_key test_engine board0 (board0, .View, some "Cannot collect dragon")
        (.Char 'n')
        = some (board0, .View, some "Cannot collect dragon")
      ∧ some "Cannot collect dragon" ≠ (none : Option String) := by
  decide

/-- C8 (amended): for every key dispatched to the state machine the incoming
notice is discarded up front (the result never depends on it) and the
resulting notice is non-empty only with one of the three explicit rejection
messages; the new-game key, handled outside the machine, leaves the notice
untouched. -/
theorem notice_cleared (E : Engine) (fresh b : Board) (s : BoardState)
    (info : Option String) (k : KeyCode) :
    change_board_state E b s info k = change_board_state E b s none k
      ∧ notice_ok (change_board_state E b s info k) = true
      ∧ handle_key E fresh (b, s, info) (.Char 'n') = some (fresh, s, info) := by
  refine ⟨rfl, ?_, ?_⟩
  · cases s with
    | View =>
      show notice_ok (some (view_step b k)) = true
      cases k <;> rfl
    | CollectDragon => exact collect_step_notice E b k
    | SemiPickup index => exact semi_step_notice E b index k
    | Pickup loc => exact pickup_step_notice E b loc k
  · show handle_key E fresh (b, s, info) (.Char 'n') = some (fresh, s, info)
    unfold handle_key
    rw [if_neg (by decide), if_pos rfl]

/-! ## C10: the depth bound on held tray selections -/

set_option maxHeartbeats 1000000 in
theorem view_state_depth (c : Char) : depth_ok (view_state c) := by
  unfold view_state
  repeat' split
  all_goals trivial

theorem semi_step_depth (E : Engine) (b : Board) (index : Nat) (k : KeyCode) :
    depth_ok (semi_step E b index k).2.1 := by
  unfold semi_step
  split
  · trivial
  · split
    · rename_i c hne
      rcases hd : to_digit c with _ | n
      · simp only [hd]; trivial
      · simp only [hd]
        split
        · trivial
        · split
          · rename_i hcond _
            have h9 := to_digit_le_nine c n hd
            exact ⟨by omega, h9⟩
          · trivial
    · trivial

theorem pickup_step_depth (E : Engine) (b : Board) (loc : Location)
    (k : KeyCode) (r : Board × BoardState × Option String)
    (h : pickup_step E b loc k = some r) (hd : depth_ok (.Pickup loc)) :
    depth_ok r.2.1 := by
  unfold pickup_step at h
  split at h
  · cases h; trivial
  · split at h
    · cases h; exact hd
    · split at h
      · exact Option.noConfusion h
      · split at h
        · split at h
          · exact Option.noConfusion h
          · cases h; trivial
        · cases h; exact hd

theorem cbs_depth (E : Engine) (b : Board) (s : BoardState)
    (info : Option String) (k : KeyCode) (r : Board × BoardState × Option String)
    (h : change_board_state E b s info k = some r) (hd : depth_ok s) :
    depth_ok r.2.1 := by
  cases s with
  | View =>
    have h2 : view_step b k = r := by
      injection h
    subst h2
    cases k with
    | Char c => exact view_state_depth c
    | Esc => trivial
    | Other => trivial
  | CollectDragon =>
    have h2 : collect_step E b k = r := by
      injection h
    subst h2
    unfold collect_step
    repeat' split
    all_goals trivial
  | SemiPickup index =>
    have h2 : semi_step E b index k = r := by
      injection h
    subst h2
    exact semi_step_depth E b index k
  | Pickup loc => exact pickup_step_depth E b loc k r h hd

theorem handle_key_depth (E : Engine) (fresh : Board)
    (t r : Board × BoardState × Option String) (k : KeyCode)
    (h : handle_key E fresh t k = some r) (hd : depth_ok t.2.1) :
    depth_ok r.2.1 := by
  unfold handle_key at h
  split at h
  · cases h; exact hd
  · split at h
    · cases h; exact hd
    · exact cbs_depth E t.1 t.2.1 t.2.2 k r h hd

theorem reachable_depth (E : Engine) (t : Board × BoardState × Option String)
    (h : Reachable E t) : depth_ok t.2.1 := by
  induction h with
  | init b => trivial
  | step fresh k _ hstep ih => exact handle_key_depth E fresh _ _ k hstep ih

/-- C10: every reachable held tray selection `Pickup (Tray x y)` has
`1 ≤ y ≤ 9`: the count comes from a single decimal digit key and `0` is
rejected, so a depth of 10 or more can never be selected. -/
theorem held_tray_depth_bounded (E : Engine) (b : Board) (x y : Nat)
    (info : Option String)
    (h : Reachable E (b, BoardState.Pickup (Location.Tray x y), info)) :
    1 ≤ y ∧ y ≤ 9 :=
  reachable_depth E _ h

/-- C10 witness: the depth-1 selection reached by pressing `'1'` twice from a
fresh single-card board. -/
theorem held_tray_depth_bounded_w : 1 ≤ 1 ∧ (1 : Nat) ≤ 9 := by
  have h0 : Reachable test_engine (board_one, BoardState.View, none) :=
    Reachable.init board_one
  have h1 : Reachable test_engine (board_one, BoardState.SemiPickup 0, none) :=
    Reachable.step board_one (.Char '1') h0 (by decide)
  have h2 : Reachable test_engine
      (board_one, BoardState.Pickup (Location.Tray 0 1), none) :=
    Reachable.step board_one (.Char '1') h1 (by decide)
  exact held_tray_depth_bounded test_engine board_one 0 1 none h2
